import Mathlib

/-!
Shallow embedding of `src/email_validator.py` (a bulk email validator:
regex format check, disposable-domain set membership, DNS MX lookup)
together with proofs of the specification claims.

Modelling conventions:
* Python strings are Lean `String`s; character-level work uses `String.data`.
* `str.strip()` / `str.lower()` are embedded for the ASCII range
  (`pyStrip`, `pyLower`); Python also handles some non-ASCII whitespace and
  case mappings, which none of the claims depend on.
* The global `DISPOSABLE_DOMAINS` set is passed explicitly as a `List String`
  (membership is all the code uses, so a list with `∈` models the set).
* The DNS resolver is an explicit oracle `String → DnsOutcome`: an `answers n`
  outcome models `dns.resolver.resolve` returning an answer set of size `n`,
  and `failure` models any raised resolver exception (NXDOMAIN, NoAnswer,
  Timeout, DNSException).  The Lean functions are total, embedding the fact
  that the Python classifier catches every resolver exception.
* File reads are explicit data: `FileReadOutcome` for the input file,
  `Option (List String)` (lines of the file, or `none` when absent) for the
  disposable blocklist file.
-/

namespace EmailValidator

/-- Characters removed by Python `str.strip()`, restricted to ASCII
(space, tab, newline, carriage return, vertical tab, form feed). -/
def pyIsSpace (c : Char) : Bool :=
  c = ' ' || c = '\t' || c = '\n' || c = '\r' || c = '\x0b' || c = '\x0c'

/-- `str.strip()` on the character list: drop whitespace from both ends. -/
def pyStripList (l : List Char) : List Char :=
  ((l.dropWhile pyIsSpace).reverse.dropWhile pyIsSpace).reverse

/-- Embedding of Python `s.strip()`. -/
def pyStrip (s : String) : String :=
  String.mk (pyStripList s.data)

/-- Embedding of Python `s.lower()` on the ASCII range: `Char.toLower`
maps `A`-`Z` to `a`-`z` and fixes everything else, exactly as
`str.lower` does on ASCII. -/
def pyLower (s : String) : String :=
  String.mk (s.data.map Char.toLower)

/-- The character class `[a-zA-Z0-9._%+-]` (local part of the regex). -/
def isLocalChar (c : Char) : Bool :=
  c.isAlpha || c.isDigit || c = '.' || c = '_' || c = '%' || c = '+' || c = '-'

/-- The character class `[a-zA-Z0-9.-]` (domain part of the regex). -/
def isDomainChar (c : Char) : Bool :=
  c.isAlpha || c.isDigit || c = '.' || c = '-'

/-- Matcher for the regex fragment `\.[a-zA-Z]{2,}$`: a literal dot, then
two or more ASCII letters, then the end of the string. -/
def dotTld (cs : List Char) : Bool :=
  match cs with
  | [] => false
  | c :: t => c = '.' && decide (2 ≤ t.length) && t.all Char.isAlpha

/-- Matcher for the regex fragment `[a-zA-Z0-9.-]+\.[a-zA-Z]{2,}$`:
after consuming one mandatory domain character, either the `\.[a-zA-Z]{2,}$`
tail starts or more domain characters follow (the nondeterminism of the
regex `+` made explicit). -/
def domPlus (cs : List Char) : Bool :=
  match cs with
  | [] => false
  | c :: rest => isDomainChar c && (dotTld rest || domPlus rest)

/-- Matcher for the regex fragment `@[a-zA-Z0-9.-]+\.[a-zA-Z]{2,}$`. -/
def atDomain (cs : List Char) : Bool :=
  match cs with
  | [] => false
  | c :: rest => c = '@' && domPlus rest

/-- Matcher for the full pattern `[a-zA-Z0-9._%+-]+@[a-zA-Z0-9.-]+\.[a-zA-Z]{2,}$`
anchored on the left (as `re.match` is). -/
def localPlus (cs : List Char) : Bool :=
  match cs with
  | [] => false
  | c :: rest => isLocalChar c && (atDomain rest || localPlus rest)

/-- Embedding of `is_valid_email_format` (line 51): `re.match` of
`^[a-zA-Z0-9._%+-]+@[a-zA-Z0-9.-]+\.[a-zA-Z]{2,}$` converted to a Bool.
(In Python the `$` anchor would also match just before a trailing newline,
but every caller passes a stripped string, which never ends in a newline,
so whole-string anchoring is the faithful semantics.) -/
def is_valid_email_format (email : String) : Bool :=
  localPlus email.data

/-- Embedding of the Python expression `email.split` applied to the at
sign: splits the character list at every at sign, keeping empty segments,
and is never the empty list (in Python, splitting the empty string yields
a singleton list holding the empty string). -/
def splitAtSign (l : List Char) : List (List Char) :=
  match l with
  | [] => [[]]
  | c :: rest =>
    if c = '@' then [] :: splitAtSign rest
    else
      match splitAtSign rest with
      | [] => [[c]]
      | p :: ps => (c :: p) :: ps

/-- The last segment of the split (line 58 and line 103 take index -1 of
the split, on a list that is provably non-empty; the `[]` default of
`getLastD` is never used). -/
def emailDomain (email : String) : String :=
  String.mk ((splitAtSign email.data).getLastD [])

/-- Embedding of `is_disposable_email` (line 56): take the substring after
the last at sign, lower-case it, and test membership in the disposable set.
The API-fallback branch of the Python source is commented out, so the
function returns `False` whenever the local set misses: no network call. -/
def is_disposable_email (ds : List String) (email : String) : Bool :=
  let domain := pyLower (emailDomain email)
  decide (domain ∈ ds)

/-- Outcome of one DNS MX query: an answer set of size `n`, or any raised
resolver exception (NXDOMAIN, NoAnswer, Timeout, other DNSException). -/
inductive DnsOutcome where
  | answers (n : Nat)
  | failure
deriving DecidableEq, Repr

/-- Embedding of `has_mx_record` (line 74): true iff the query succeeds
with a non-empty answer set; every resolver exception yields false. -/
def has_mx_record (dns : String → DnsOutcome) (domain : String) : Bool :=
  match dns domain with
  | .answers n => decide (0 < n)
  | .failure => false

/-- One result record of `validate_emails` (the dict built at line 110). -/
structure EmailResult where
  email : String
  valid_format : Bool
  disposable : Bool
  mx_valid : Bool
  status : String
deriving DecidableEq, Repr

/-- `email.strip().lower()` (line 89). -/
def normalizeEmail (raw : String) : String :=
  pyLower (pyStrip raw)

/-- The per-address body of the `validate_emails` loop (lines 93-116),
applied to an already-normalized non-empty address. -/
def classifyEmail (ds : List String) (dns : String → DnsOutcome)
    (email : String) : EmailResult :=
  if is_valid_email_format email then
    if is_disposable_email ds email then
      { email := email, valid_format := true, disposable := true,
        mx_valid := false, status := "Disposable" }
    else
      if has_mx_record dns (emailDomain email) then
        { email := email, valid_format := true, disposable := false,
          mx_valid := true, status := "Valid" }
      else
        { email := email, valid_format := true, disposable := false,
          mx_valid := false, status := "No MX record (domain invalid)" }
  else
    { email := email, valid_format := false, disposable := false,
      mx_valid := false, status := "Invalid format" }

/-- Embedding of `validate_emails` (line 82): normalize each line, skip the
ones that become empty, classify the rest in order. -/
def validate_emails (ds : List String) (dns : String → DnsOutcome) :
    List String → List EmailResult
  | [] => []
  | raw :: rest =>
    let email := normalizeEmail raw
    if email = "" then validate_emails ds dns rest
    else classifyEmail ds dns email :: validate_emails ds dns rest

/-- Embedding of `load_disposable_domains` (line 36).  The argument is the
content of `disposable_email_blocklist.conf` as a list of lines, or `none`
when the file does not exist (in which case the Python code prints a
warning and leaves the set empty).  Each line is stripped and lower-cased;
results that are empty or start with a hash mark are skipped.  The Python
set is modelled as
the list of inserted elements (membership is all that is ever used). -/
def load_disposable_domains (file : Option (List String)) : List String :=
  match file with
  | none => []
  | some lines =>
    lines.filterMap fun line =>
      let domain := pyLower (pyStrip line)
      if domain ≠ "" ∧ domain.startsWith "#" = false then some domain else none

/-- Outcome of opening and reading the input file. -/
inductive FileReadOutcome where
  | ok (lines : List String)
  | notFound
  | readError
deriving DecidableEq, Repr

/-- Embedding of `read_emails_from_file` (line 120): strip each line, skip
empties; on `FileNotFoundError` or any other read error, return `[]`. -/
def read_emails_from_file (f : FileReadOutcome) : List String :=
  match f with
  | .ok lines => (lines.map pyStrip).filter fun e => decide (e ≠ "")
  | .notFound => []
  | .readError => []

/-- The `__main__` validation loop (lines 201-205): one
`validate_emails [email]` call per address, results concatenated in order. -/
def mainLoop (ds : List String) (dns : String → DnsOutcome)
    (emails : List String) : List EmailResult :=
  emails.foldl (fun acc email => acc ++ validate_emails ds dns [email]) []

/-- Embedding of the `__main__` driver (lines 194-208): read the input
file; if no usable address remains, exit with code 1 and no output file;
otherwise run the loop and write the CSV (`save_results_to_csv` writes
nothing when the result list is empty) and exit 0.  The second component
is the list of records written to the output file, `none` when no file is
produced. -/
def runMain (ds : List String) (dns : String → DnsOutcome)
    (f : FileReadOutcome) : Nat × Option (List EmailResult) :=
  let emails := read_emails_from_file f
  if emails = [] then (1, none)
  else
    let results := mainLoop ds dns emails
    (0, if results = [] then none else some results)

/-! ### Basic facts about the classifier and the batch runner -/

/-- The per-address classifier produces one of exactly four records. -/
theorem classifyEmail_cases (ds : List String) (dns : String → DnsOutcome)
    (e : String) :
    classifyEmail ds dns e = ⟨e, false, false, false, "Invalid format"⟩ ∨
    classifyEmail ds dns e = ⟨e, true, true, false, "Disposable"⟩ ∨
    classifyEmail ds dns e = ⟨e, true, false, false, "No MX record (domain invalid)"⟩ ∨
    classifyEmail ds dns e = ⟨e, true, false, true, "Valid"⟩ := by
  unfold classifyEmail
  split
  · split
    · tauto
    · split
      · tauto
      · tauto
  · tauto

/-- The `email` field of every record is the address the classifier got. -/
theorem classifyEmail_email (ds : List String) (dns : String → DnsOutcome)
    (e : String) : (classifyEmail ds dns e).email = e := by
  rcases classifyEmail_cases ds dns e with h | h | h | h <;> rw [h]

/-- `validate_emails` is: normalize every line, drop the lines that
normalize to the empty string, classify what remains, in order. -/
theorem validate_emails_eq (ds : List String) (dns : String → DnsOutcome)
    (lines : List String) :
    validate_emails ds dns lines =
      ((lines.map normalizeEmail).filter fun e => decide (e ≠ "")).map
        (classifyEmail ds dns) := by
  induction lines with
  | nil => rfl
  | cons raw rest ih =>
    simp only [validate_emails, List.map_cons, List.filter_cons]
    by_cases h : normalizeEmail raw = ""
    · simp [h, ih]
    · simp [h, ih]

/-- `validate_emails` distributes over list concatenation. -/
theorem validate_emails_append (ds : List String) (dns : String → DnsOutcome)
    (xs ys : List String) :
    validate_emails ds dns (xs ++ ys) =
      validate_emails ds dns xs ++ validate_emails ds dns ys := by
  induction xs with
  | nil => rfl
  | cons raw rest ih =>
    simp only [List.cons_append, validate_emails]
    by_cases h : normalizeEmail raw = ""
    · simp [h, ih]
    · simp [h, ih]

/-- Unfolding of the driver loop with an arbitrary accumulator. -/
theorem mainLoop_foldl (ds : List String) (dns : String → DnsOutcome)
    (emails : List String) (acc : List EmailResult) :
    emails.foldl (fun acc email => acc ++ validate_emails ds dns [email]) acc =
      acc ++ validate_emails ds dns emails := by
  induction emails generalizing acc with
  | nil => simp [validate_emails]
  | cons e rest ih =>
    have hsplit : validate_emails ds dns (e :: rest) =
        validate_emails ds dns [e] ++ validate_emails ds dns rest :=
      validate_emails_append ds dns [e] rest
    simp only [List.foldl_cons, ih, hsplit, List.append_assoc]

/-- The one-at-a-time driver loop computes the same records as one batch
call of `validate_emails`. -/
theorem mainLoop_eq (ds : List String) (dns : String → DnsOutcome)
    (emails : List String) :
    mainLoop ds dns emails = validate_emails ds dns emails := by
  have h := mainLoop_foldl ds dns emails []
  simpa [mainLoop] using h

/-! ### Spec-side definitions for the status invariant (claim C1)

These two definitions follow the words of the specification (section 3),
not the source; the claim compares the source-derived classifier against
them. -/

/-- The status mapping stated by the spec: a pure function of the triple
of flags. -/
def statusOfFlags (vf dis mx : Bool) : String :=
  if vf then
    if dis then "Disposable"
    else if mx then "Valid" else "No MX record (domain invalid)"
  else "Invalid format"

/-- The four flag combinations the spec says are the only reachable ones. -/
def reachableFlagTriples : List (Bool × Bool × Bool) :=
  [(false, false, false), (true, true, false), (true, false, false), (true, false, true)]

/-- C1: every record produced for a non-blank input line carries one of the
four status strings, the status is the stated pure function of the triple
(valid_format, disposable, mx_valid), and only the four listed flag
combinations are reachable. -/
theorem status_function_of_flags (ds : List String) (dns : String → DnsOutcome)
    (lines : List String) (r : EmailResult)
    (hr : r ∈ validate_emails ds dns lines) :
    r.status = statusOfFlags r.valid_format r.disposable r.mx_valid ∧
    (r.valid_format, r.disposable, r.mx_valid) ∈ reachableFlagTriples := by
  rw [validate_emails_eq] at hr
  rcases List.mem_map.mp hr with ⟨e, -, rfl⟩
  rcases classifyEmail_cases ds dns e with h | h | h | h <;>
    rw [h] <;> exact ⟨rfl, by simp [reachableFlagTriples]⟩

/-- Witness for C1: the record for the line "bad" instantiates the claim. -/
theorem status_function_of_flags_witness :
    EmailResult.mk "bad" false false false "Invalid format" ∈
      validate_emails [] (fun _ => DnsOutcome.failure) ["bad"] ∧
    ("Invalid format" = statusOfFlags false false false ∧
      ((false : Bool), (false : Bool), (false : Bool)) ∈ reachableFlagTriples) :=
  ⟨by decide,
    status_function_of_flags [] (fun _ => DnsOutcome.failure) ["bad"]
      (EmailResult.mk "bad" false false false "Invalid format") (by decide)⟩

/-- Lower-casing preserves emptiness. -/
theorem pyLower_eq_empty_iff (s : String) : pyLower s = "" ↔ s = "" := by
  constructor
  · intro h
    have hd : s.data.map Char.toLower = [] := congrArg String.data h
    have hnil : s.data = [] := by simpa using hd
    exact String.ext (by simp [hnil])
  · intro h
    rw [h]
    rfl

/-- C6: the batch runner yields exactly one record per line whose trimmed
form is non-empty, in input order, the email field of each record being the
trimmed lower-cased line; dropping a line depends only on its trimmed form,
since lower-casing preserves emptiness. -/
theorem batch_shape (ds : List String) (dns : String → DnsOutcome)
    (lines : List String) :
    validate_emails ds dns lines =
      ((lines.map normalizeEmail).filter fun e => decide (e ≠ "")).map
        (classifyEmail ds dns) ∧
    (∀ e : String, (classifyEmail ds dns e).email = e) ∧
    (∀ raw : String, normalizeEmail raw = "" ↔ pyStrip raw = "") :=
  ⟨validate_emails_eq ds dns lines, fun e => classifyEmail_email ds dns e,
    fun raw => pyLower_eq_empty_iff (pyStrip raw)⟩

/-- C9: batch classification is a list homomorphism, and the driver loop
(one singleton `validate_emails` call per address, concatenated) computes
the same record sequence as one batch call. -/
theorem batch_homomorphism (ds : List String) (dns : String → DnsOutcome)
    (xs ys : List String) :
    validate_emails ds dns (xs ++ ys) =
      validate_emails ds dns xs ++ validate_emails ds dns ys ∧
    ∀ emails : List String, mainLoop ds dns emails = validate_emails ds dns emails :=
  ⟨validate_emails_append ds dns xs ys, fun emails => mainLoop_eq ds dns emails⟩

/-! ### Characterization of the format regex -/

/-- The tail matcher accepts exactly a dot followed by two or more
letters. -/
theorem dotTld_iff (cs : List Char) :
    dotTld cs = true ↔
      ∃ t, cs = '.' :: t ∧ 2 ≤ t.length ∧ ∀ c ∈ t, c.isAlpha = true := by
  cases cs with
  | nil => simp [dotTld]
  | cons c t =>
    simp only [dotTld, Bool.and_eq_true, decide_eq_true_eq, List.all_eq_true,
      List.cons.injEq]
    constructor
    · rintro ⟨⟨hc, hlen⟩, hall⟩
      exact ⟨t, ⟨hc, rfl⟩, hlen, hall⟩
    · rintro ⟨t', ⟨hc, rfl⟩, hlen, hall⟩
      exact ⟨⟨hc, hlen⟩, hall⟩

/-- The domain matcher accepts exactly: one or more domain characters,
a dot, then two or more letters, up to the end of the input. -/
theorem domPlus_iff (cs : List Char) :
    domPlus cs = true ↔
      ∃ d t, cs = d ++ '.' :: t ∧ d ≠ [] ∧ (∀ c ∈ d, isDomainChar c = true) ∧
        2 ≤ t.length ∧ ∀ c ∈ t, c.isAlpha = true := by
  induction cs with
  | nil =>
    simp only [domPlus]
    constructor
    · intro h
      cases h
    · rintro ⟨d, t, h, hd, -⟩
      cases d <;> simp at h
  | cons c rest ih =>
    simp only [domPlus, Bool.and_eq_true, Bool.or_eq_true]
    constructor
    · rintro ⟨hc, hdot | hrec⟩
      · rcases (dotTld_iff rest).mp hdot with ⟨t, rfl, hlen, hall⟩
        refine ⟨[c], t, rfl, by simp, ?_, hlen, hall⟩
        intro x hx
        rcases List.mem_singleton.mp hx with rfl
        exact hc
      · rcases ih.mp hrec with ⟨d, t, rfl, hd, hdall, hlen, hall⟩
        refine ⟨c :: d, t, rfl, by simp, ?_, hlen, hall⟩
        intro x hx
        rcases List.mem_cons.mp hx with rfl | hx
        · exact hc
        · exact hdall x hx
    · rintro ⟨d, t, heq, hd, hdall, hlen, hall⟩
      cases d with
      | nil => exact absurd rfl hd
      | cons c₀ d' =>
        rw [List.cons_append] at heq
        injection heq with hc hrest
        subst hc
        refine ⟨hdall _ (List.mem_cons_self _ _), ?_⟩
        cases d' with
        | nil =>
          exact Or.inl ((dotTld_iff rest).mpr ⟨t, by simpa using hrest, hlen, hall⟩)
        | cons c₁ d'' =>
          exact Or.inr (ih.mpr ⟨c₁ :: d'', t, by simpa using hrest, by simp,
            fun x hx => hdall x (List.mem_cons_of_mem _ hx), hlen, hall⟩)

/-- The matcher for the part after the local part accepts exactly an at
sign followed by a domain-matcher match. -/
theorem atDomain_iff (cs : List Char) :
    atDomain cs = true ↔ ∃ rest, cs = '@' :: rest ∧ domPlus rest = true := by
  cases cs with
  | nil => simp [atDomain]
  | cons c rest =>
    simp only [atDomain, Bool.and_eq_true, decide_eq_true_eq, List.cons.injEq]
    constructor
    · rintro ⟨rfl, h⟩
      exact ⟨rest, ⟨rfl, rfl⟩, h⟩
    · rintro ⟨rest', ⟨rfl, rfl⟩, h⟩
      exact ⟨rfl, h⟩

/-- The full matcher accepts exactly: one or more local characters, an at
sign, then a domain-matcher match. -/
theorem localPlus_iff (cs : List Char) :
    localPlus cs = true ↔
      ∃ l rest, cs = l ++ '@' :: rest ∧ l ≠ [] ∧
        (∀ c ∈ l, isLocalChar c = true) ∧ domPlus rest = true := by
  induction cs with
  | nil =>
    simp only [localPlus]
    constructor
    · intro h
      cases h
    · rintro ⟨l, rest, h, hl, -⟩
      cases l <;> simp at h
  | cons c cs' ih =>
    simp only [localPlus, Bool.and_eq_true, Bool.or_eq_true]
    constructor
    · rintro ⟨hc, hat | hrec⟩
      · rcases (atDomain_iff cs').mp hat with ⟨rest, rfl, hdom⟩
        refine ⟨[c], rest, rfl, by simp, ?_, hdom⟩
        intro x hx
        rcases List.mem_singleton.mp hx with rfl
        exact hc
      · rcases ih.mp hrec with ⟨l, rest, rfl, hl, hlall, hdom⟩
        refine ⟨c :: l, rest, rfl, by simp, ?_, hdom⟩
        intro x hx
        rcases List.mem_cons.mp hx with rfl | hx
        · exact hc
        · exact hlall x hx
    · rintro ⟨l, rest, heq, hl, hlall, hdom⟩
      cases l with
      | nil => exact absurd rfl hl
      | cons c₀ l' =>
        rw [List.cons_append] at heq
        injection heq with hc hrest
        subst hc
        refine ⟨hlall _ (List.mem_cons_self _ _), ?_⟩
        cases l' with
        | nil =>
          exact Or.inl ((atDomain_iff cs').mpr ⟨rest, by simpa using hrest, hdom⟩)
        | cons c₁ l'' =>
          exact Or.inr (ih.mpr ⟨c₁ :: l'', rest, by simpa using hrest, by simp,
            fun x hx => hlall x (List.mem_cons_of_mem _ hx), hdom⟩)

/-- `is_valid_email_format` accepts exactly the strings of the shape the
spec describes: local part, at sign, domain part, dot, two or more
letters, covering the whole string. -/
theorem is_valid_email_format_iff (email : String) :
    is_valid_email_format email = true ↔
      ∃ l d t : List Char,
        email.data = l ++ '@' :: (d ++ '.' :: t) ∧
        l ≠ [] ∧ (∀ c ∈ l, isLocalChar c = true) ∧
        d ≠ [] ∧ (∀ c ∈ d, isDomainChar c = true) ∧
        2 ≤ t.length ∧ ∀ c ∈ t, c.isAlpha = true := by
  rw [is_valid_email_format, localPlus_iff]
  constructor
  · rintro ⟨l, rest, heq, hl, hlall, hdom⟩
    rcases (domPlus_iff rest).mp hdom with ⟨d, t, rfl, hd, hdall, hlen, hall⟩
    exact ⟨l, d, t, heq, hl, hlall, hd, hdall, hlen, hall⟩
  · rintro ⟨l, d, t, heq, hl, hlall, hd, hdall, hlen, hall⟩
    exact ⟨l, d ++ '.' :: t, heq, hl, hlall,
      (domPlus_iff _).mpr ⟨d, t, rfl, hd, hdall, hlen, hall⟩⟩

/-- C2: the format check accepts a string exactly when it decomposes as
one or more local-class characters, an at sign, one or more domain-class
characters, a literal dot and two or more letters, covering the whole
string; on rejection the classifier short-circuits to the all-false
record with status "Invalid format". -/
theorem format_check_spec (ds : List String) (dns : String → DnsOutcome)
    (email : String) :
    (is_valid_email_format email = true ↔
      ∃ l d t : List Char,
        email.data = l ++ '@' :: (d ++ '.' :: t) ∧
        l ≠ [] ∧ (∀ c ∈ l, isLocalChar c = true) ∧
        d ≠ [] ∧ (∀ c ∈ d, isDomainChar c = true) ∧
        2 ≤ t.length ∧ ∀ c ∈ t, c.isAlpha = true) ∧
    (is_valid_email_format email = false →
      classifyEmail ds dns email =
        ⟨email, false, false, false, "Invalid format"⟩) := by
  refine ⟨is_valid_email_format_iff email, fun h => ?_⟩
  simp [classifyEmail, h]

/-- Witness for C2 at the input "not-an-email" from the spec scenarios. -/
theorem format_check_spec_witness :
    is_valid_email_format "not-an-email" = false ∧
    classifyEmail [] (fun _ => DnsOutcome.failure) "not-an-email" =
      ⟨"not-an-email", false, false, false, "Invalid format"⟩ :=
  ⟨by decide,
    (format_check_spec [] (fun _ => DnsOutcome.failure) "not-an-email").2 (by decide)⟩

/-! ### MX check, disposable check, DNS independence -/

/-- C3: for a format-valid non-disposable address, a DNS answer set of
positive size yields mx_valid true with status "Valid", and any resolver
failure yields mx_valid false with status "No MX record (domain invalid)".
(The Lean classifier is a total function for every oracle, embedding the
fact that the Python code catches every resolver exception: no exception
crosses the classifier boundary.) -/
theorem mx_check_spec (ds : List String) (dns : String → DnsOutcome)
    (email : String)
    (hv : is_valid_email_format email = true)
    (hd : is_disposable_email ds email = false) :
    (∀ n, dns (emailDomain email) = DnsOutcome.answers n → 0 < n →
      classifyEmail ds dns email = ⟨email, true, false, true, "Valid"⟩) ∧
    (dns (emailDomain email) = DnsOutcome.failure →
      classifyEmail ds dns email =
        ⟨email, true, false, false, "No MX record (domain invalid)"⟩) := by
  constructor
  · intro n hn hpos
    simp [classifyEmail, hv, hd, has_mx_record, hn, hpos]
  · intro hf
    simp [classifyEmail, hv, hd, has_mx_record, hf]

/-- Witness for C3: an oracle answering with two MX records classifies a
well-formed non-disposable address as "Valid". -/
theorem mx_check_spec_witness :
    is_valid_email_format "a@b.co" = true ∧
    is_disposable_email [] "a@b.co" = false ∧
    classifyEmail [] (fun _ => DnsOutcome.answers 2) "a@b.co" =
      ⟨"a@b.co", true, false, true, "Valid"⟩ :=
  ⟨by decide, by decide,
    (mx_check_spec [] (fun _ => DnsOutcome.answers 2) "a@b.co"
      (by decide) (by decide)).1 2 rfl (by decide)⟩

/-- C4: the disposable check is true exactly when the lower-cased part
after the last at sign belongs to the set, and the empty set never marks
an address disposable.  (The embedding has no network effect at all: the
API-fallback code of the source is commented out.) -/
theorem disposable_check_spec (ds : List String) (email : String)
    (hv : is_valid_email_format email = true) :
    (is_disposable_email ds email = true ↔ pyLower (emailDomain email) ∈ ds) ∧
    is_disposable_email [] email = false := by
  constructor
  · simp [is_disposable_email]
  · simp [is_disposable_email]

/-- Witness for C4 at a concrete disposable address from the spec
scenarios. -/
theorem disposable_check_spec_witness :
    is_valid_email_format "x@mailinator.com" = true ∧
    (is_disposable_email ["mailinator.com"] "x@mailinator.com" = true ↔
      pyLower (emailDomain "x@mailinator.com") ∈ ["mailinator.com"]) :=
  ⟨by decide,
    (disposable_check_spec ["mailinator.com"] "x@mailinator.com" (by decide)).1⟩

/-- C5: when the format check fails or the domain is disposable, the
result does not depend on the DNS oracle (no query is observable), and a
format-rejected record always has disposable false. -/
theorem dns_independence (ds : List String) (dns₁ dns₂ : String → DnsOutcome)
    (email : String) :
    ((is_valid_email_format email = false ∨ is_disposable_email ds email = true) →
      classifyEmail ds dns₁ email = classifyEmail ds dns₂ email) ∧
    ((classifyEmail ds dns₁ email).valid_format = false →
      (classifyEmail ds dns₁ email).disposable = false) := by
  constructor
  · rintro (h | h)
    · simp [classifyEmail, h]
    · by_cases hv : is_valid_email_format email
      · simp [classifyEmail, hv, h]
      · simp [classifyEmail, hv]
  · intro h
    rcases classifyEmail_cases ds dns₁ email with hc | hc | hc | hc <;>
      rw [hc] at h ⊢ <;> first | rfl | cases h

/-- Witness for C5: a format-rejected address yields the same record under
a failing oracle and an answering oracle. -/
theorem dns_independence_witness :
    (is_valid_email_format "bad" = false ∨ is_disposable_email [] "bad" = true) ∧
    classifyEmail [] (fun _ => DnsOutcome.failure) "bad" =
      classifyEmail [] (fun _ => DnsOutcome.answers 1) "bad" :=
  ⟨Or.inl (by decide),
    (dns_independence [] (fun _ => DnsOutcome.failure)
      (fun _ => DnsOutcome.answers 1) "bad").1 (Or.inl (by decide))⟩

/-! ### Stripping is idempotent; the driver never writes an empty batch -/

/-- The head of a `dropWhile` result fails the predicate. -/
theorem dropWhile_head_false {α : Type} (q : α → Bool) (l : List α) (c : α)
    (rest : List α) (h : l.dropWhile q = c :: rest) : q c = false := by
  induction l with
  | nil => cases h
  | cons a l' ih =>
    rw [List.dropWhile_cons] at h
    by_cases hq : q a = true
    · rw [if_pos hq] at h
      exact ih h
    · rw [if_neg hq] at h
      injection h with h1 h2
      subst h1
      simpa using hq

/-- `dropWhile` is idempotent. -/
theorem dropWhile_idem {α : Type} (q : α → Bool) (l : List α) :
    (l.dropWhile q).dropWhile q = l.dropWhile q := by
  rcases h : l.dropWhile q with _ | ⟨c, rest⟩
  · rfl
  · rw [List.dropWhile_cons, if_neg (by simp [dropWhile_head_false q l c rest h])]

/-- A non-empty `dropWhile` result keeps the last element of the input. -/
theorem dropWhile_getLast? {α : Type} (q : α → Bool) (l : List α)
    (h : l.dropWhile q ≠ []) : (l.dropWhile q).getLast? = l.getLast? := by
  induction l with
  | nil => simp at h
  | cons a l' ih =>
    rw [List.dropWhile_cons]
    by_cases hq : q a = true
    · rw [if_pos hq]
      rw [List.dropWhile_cons, if_pos hq] at h
      have hl' : l' ≠ [] := by
        intro h0
        rw [h0] at h
        exact h rfl
      rw [ih h]
      cases l' with
      | nil => exact absurd rfl hl'
      | cons b l'' => rw [List.getLast?_cons_cons]
    · rw [if_neg hq]

/-- The first character of a stripped list is not whitespace. -/
theorem pyStripList_head (l : List Char) (c : Char) (rest : List Char)
    (h : pyStripList l = c :: rest) : pyIsSpace c = false := by
  unfold pyStripList at h
  have h1 : ((l.dropWhile pyIsSpace).reverse.dropWhile pyIsSpace).reverse.head? =
      some c := by
    rw [h, List.head?_cons]
  rw [List.head?_reverse] at h1
  have hne : (l.dropWhile pyIsSpace).reverse.dropWhile pyIsSpace ≠ [] := by
    intro h0
    rw [h0] at h
    cases h
  rw [dropWhile_getLast? _ _ hne, List.getLast?_reverse] at h1
  rcases hm : l.dropWhile pyIsSpace with _ | ⟨a, m'⟩
  · rw [hm] at h1
    cases h1
  · rw [hm, List.head?_cons] at h1
    injection h1 with h1
    subst h1
    exact dropWhile_head_false pyIsSpace l a m' hm

/-- The last character of a stripped list is not whitespace. -/
theorem pyStripList_getLast (l : List Char) (c : Char)
    (h : (pyStripList l).getLast? = some c) : pyIsSpace c = false := by
  unfold pyStripList at h
  rw [List.getLast?_reverse] at h
  rcases hm : (l.dropWhile pyIsSpace).reverse.dropWhile pyIsSpace with _ | ⟨a, m'⟩
  · rw [hm] at h
    cases h
  · rw [hm, List.head?_cons] at h
    injection h with h
    subst h
    exact dropWhile_head_false pyIsSpace _ a m' hm

/-- Stripping whitespace from both ends is idempotent. -/
theorem pyStripList_idem (l : List Char) :
    pyStripList (pyStripList l) = pyStripList l := by
  rcases hr : pyStripList l with _ | ⟨c, rest⟩
  · rfl
  · have hhead : pyIsSpace c = false := pyStripList_head l c rest hr
    have h1 : (c :: rest).dropWhile pyIsSpace = c :: rest := by
      rw [List.dropWhile_cons, if_neg (by simp [hhead])]
    have h2 : (c :: rest).reverse.dropWhile pyIsSpace = (c :: rest).reverse := by
      rcases hv : (c :: rest).reverse with _ | ⟨a, m'⟩
      · simp at hv
      · have ha : pyIsSpace a = false := by
          apply pyStripList_getLast l
          rw [hr, ← List.head?_reverse, hv, List.head?_cons]
        rw [List.dropWhile_cons, if_neg (by simp [ha])]
    show (((c :: rest).dropWhile pyIsSpace).reverse.dropWhile pyIsSpace).reverse =
      c :: rest
    rw [h1, h2, List.reverse_reverse]

/-- `pyStrip` is idempotent. -/
theorem pyStrip_idem (s : String) : pyStrip (pyStrip s) = pyStrip s :=
  congrArg String.mk (pyStripList_idem s.data)

/-- Every address the file reader delivers still normalizes to a
non-empty string inside the classifier. -/
theorem read_emails_nonblank (f : FileReadOutcome) (e : String)
    (he : e ∈ read_emails_from_file f) : normalizeEmail e ≠ "" := by
  cases f with
  | notFound => cases he
  | readError => cases he
  | ok lines =>
    simp only [read_emails_from_file] at he
    rcases List.mem_filter.mp he with ⟨hmem, hne⟩
    rcases List.mem_map.mp hmem with ⟨l, -, rfl⟩
    have hne' : pyStrip l ≠ "" := of_decide_eq_true hne
    intro h0
    rw [normalizeEmail, pyStrip_idem] at h0
    exact hne' ((pyLower_eq_empty_iff _).mp h0)

/-- A batch of addresses that all normalize to non-empty strings yields a
non-empty record list. -/
theorem validate_emails_ne_nil (ds : List String) (dns : String → DnsOutcome)
    (emails : List String) (hne : emails ≠ [])
    (hall : ∀ e ∈ emails, normalizeEmail e ≠ "") :
    validate_emails ds dns emails ≠ [] := by
  cases emails with
  | nil => exact absurd rfl hne
  | cons e rest =>
    have h := hall e (List.mem_cons_self _ _)
    simp only [validate_emails]
    rw [if_neg h]
    simp

/-- C8: the driver exits with code 1 and produces no output file exactly
when the input file is missing, unreadable, or holds no line that is
non-blank after trimming; otherwise it exits with code 0 after writing a
non-empty batch of records. -/
theorem exit_code_spec (ds : List String) (dns : String → DnsOutcome)
    (f : FileReadOutcome) :
    ((runMain ds dns f).1 = 1 ↔
      f = FileReadOutcome.notFound ∨ f = FileReadOutcome.readError ∨
        ∃ ls, f = FileReadOutcome.ok ls ∧ ∀ l ∈ ls, pyStrip l = "") ∧
    ((runMain ds dns f).1 = 1 → (runMain ds dns f).2 = none) ∧
    ((runMain ds dns f).1 ≠ 1 →
      (runMain ds dns f).1 = 0 ∧
        ∃ rs, (runMain ds dns f).2 = some rs ∧ rs ≠ []) := by
  have hrw : runMain ds dns f =
      (if read_emails_from_file f = [] then ((1 : Nat), none) else
        ((0 : Nat),
          if mainLoop ds dns (read_emails_from_file f) = [] then none
          else some (mainLoop ds dns (read_emails_from_file f)))) := rfl
  by_cases hemp : read_emails_from_file f = []
  · have h1 : runMain ds dns f = (1, none) := by rw [hrw, if_pos hemp]
    refine ⟨?_, ?_, ?_⟩
    · rw [h1]
      constructor
      · intro _
        cases f with
        | notFound => exact Or.inl rfl
        | readError => exact Or.inr (Or.inl rfl)
        | ok ls =>
          refine Or.inr (Or.inr ⟨ls, rfl, ?_⟩)
          intro l hl
          by_contra hne
          have hmem : pyStrip l ∈ (ls.map pyStrip).filter (fun e => decide (e ≠ "")) :=
            List.mem_filter.mpr ⟨List.mem_map_of_mem _ hl, decide_eq_true hne⟩
          have hemp' : (ls.map pyStrip).filter (fun e => decide (e ≠ "")) = [] := hemp
          rw [hemp'] at hmem
          cases hmem
      · intro _
        rfl
    · intro _
      rw [h1]
    · intro hne1
      rw [h1] at hne1
      exact absurd rfl hne1
  · have hres : mainLoop ds dns (read_emails_from_file f) ≠ [] := by
      rw [mainLoop_eq]
      exact validate_emails_ne_nil ds dns _ hemp
        (fun e he => read_emails_nonblank f e he)
    have h1 : runMain ds dns f =
        (0, some (mainLoop ds dns (read_emails_from_file f))) := by
      rw [hrw, if_neg hemp, if_neg hres]
    refine ⟨?_, ?_, ?_⟩
    · rw [h1]
      constructor
      · intro h
        simp at h
      · rintro (rfl | rfl | ⟨ls, rfl, hall⟩)
        · exact absurd rfl hemp
        · exact absurd rfl hemp
        · apply absurd _ hemp
          show (ls.map pyStrip).filter (fun e => decide (e ≠ "")) = []
          apply List.filter_eq_nil_iff.mpr
          intro a ha
          rcases List.mem_map.mp ha with ⟨l, hl, rfl⟩
          simp [hall l hl]
    · intro h
      rw [h1] at h
      simp at h
    · intro _
      rw [h1]
      exact ⟨rfl, mainLoop ds dns (read_emails_from_file f), rfl, hres⟩

/-- Witness for C8: a missing input file exits with code 1 and no output. -/
theorem exit_code_spec_witness :
    (runMain [] (fun _ => DnsOutcome.failure) FileReadOutcome.notFound).1 = 1 ∧
    (runMain [] (fun _ => DnsOutcome.failure) FileReadOutcome.notFound).2 = none :=
  ⟨((exit_code_spec [] (fun _ => DnsOutcome.failure) FileReadOutcome.notFound).1).mpr
      (Or.inl rfl),
    ((exit_code_spec [] (fun _ => DnsOutcome.failure) FileReadOutcome.notFound).2).1
      (((exit_code_spec [] (fun _ => DnsOutcome.failure) FileReadOutcome.notFound).1).mpr
        (Or.inl rfl))⟩

/-! ### Disposable-list loader -/

/-- C7: when the blocklist file exists, the loaded set holds exactly the
trimmed lower-cased lines that are non-empty and do not start with a hash
mark; when the file is absent the set is empty (the source prints a
warning in that case). -/
theorem loader_spec (lines : List String) (d : String) :
    (d ∈ load_disposable_domains (some lines) ↔
      ∃ l ∈ lines, pyLower (pyStrip l) = d ∧ d ≠ "" ∧ d.startsWith "#" = false) ∧
    load_disposable_domains none = [] := by
  refine ⟨?_, rfl⟩
  simp only [load_disposable_domains, List.mem_filterMap]
  constructor
  · rintro ⟨l, hl, h⟩
    by_cases hc : pyLower (pyStrip l) ≠ "" ∧ (pyLower (pyStrip l)).startsWith "#" = false
    · rw [if_pos hc] at h
      injection h with h
      subst h
      exact ⟨l, hl, rfl, hc.1, hc.2⟩
    · rw [if_neg hc] at h
      cases h
  · rintro ⟨l, hl, heq, hne, hsw⟩
    subst heq
    exact ⟨l, hl, by rw [if_pos ⟨hne, hsw⟩]⟩

/-! ### Safety of the domain extraction -/

/-- Splitting never yields the empty list. -/
theorem splitAtSign_ne_nil (l : List Char) : splitAtSign l ≠ [] := by
  cases l with
  | nil => simp [splitAtSign]
  | cons c rest =>
    simp only [splitAtSign]
    split
    · simp
    · split <;> simp

/-- A list without an at sign splits into the singleton of itself. -/
theorem splitAtSign_no_at (l : List Char) (h : ∀ c ∈ l, ¬c = '@') :
    splitAtSign l = [l] := by
  induction l with
  | nil => rfl
  | cons c rest ih =>
    have hc : ¬c = '@' := h c (List.mem_cons_self _ _)
    have hr : splitAtSign rest = [rest] :=
      ih (fun x hx => h x (List.mem_cons_of_mem _ hx))
    simp only [splitAtSign, if_neg hc, hr]

/-- Equation: splitting a list that starts with the at sign. -/
theorem splitAtSign_cons_at (rest : List Char) :
    splitAtSign ('@' :: rest) = [] :: splitAtSign rest := by
  simp [splitAtSign]

/-- Equation: splitting a list that starts with another character. -/
theorem splitAtSign_cons_ne (c : Char) (rest p : List Char)
    (ps : List (List Char)) (hc : ¬c = '@') (h : splitAtSign rest = p :: ps) :
    splitAtSign (c :: rest) = (c :: p) :: ps := by
  simp only [splitAtSign, if_neg hc, h]

/-- A list holding an at sign splits into at least two segments. -/
theorem splitAtSign_length (l : List Char) (h : '@' ∈ l) :
    2 ≤ (splitAtSign l).length := by
  induction l with
  | nil => cases h
  | cons c rest ih =>
    by_cases hc : c = '@'
    · subst hc
      rw [splitAtSign_cons_at, List.length_cons]
      have := List.length_pos.mpr (splitAtSign_ne_nil rest)
      omega
    · have hr : '@' ∈ rest := by
        rcases List.mem_cons.mp h with h1 | h1
        · exact absurd h1.symm hc
        · exact h1
      rcases hsp : splitAtSign rest with _ | ⟨p, ps⟩
      · exact absurd hsp (splitAtSign_ne_nil rest)
      · have h2 := ih hr
        rw [hsp] at h2
        rw [splitAtSign_cons_ne c rest p ps hc hsp]
        simpa using h2

/-- The default of `getLastD` is irrelevant on a non-empty list. -/
theorem getLastD_of_ne_nil {α : Type} (l : List α) (d d' : α) (h : l ≠ []) :
    l.getLastD d = l.getLastD d' := by
  cases l with
  | nil => exact absurd rfl h
  | cons a l' => rw [List.getLastD_cons, List.getLastD_cons]

/-- The last segment of a split at the final at sign is the part after
that at sign. -/
theorem splitAtSign_getLastD (a b : List Char) (hb : ∀ c ∈ b, ¬c = '@') :
    (splitAtSign (a ++ '@' :: b)).getLastD [] = b := by
  induction a with
  | nil =>
    rw [List.nil_append, splitAtSign_cons_at, splitAtSign_no_at b hb,
      List.getLastD_cons, List.getLastD_cons, List.getLastD_nil]
  | cons c a' ih =>
    by_cases hc : c = '@'
    · subst hc
      rw [List.cons_append, splitAtSign_cons_at, List.getLastD_cons]
      exact ih
    · rw [List.cons_append]
      rcases hsp : splitAtSign (a' ++ '@' :: b) with _ | ⟨p, ps⟩
      · exact absurd hsp (splitAtSign_ne_nil _)
      · have h2 := splitAtSign_length (a' ++ '@' :: b) (by simp)
        rw [hsp] at h2
        have hps : ps ≠ [] := by
          cases ps with
          | nil => simp at h2
          | cons q qs => simp
        have ihh : (p :: ps).getLastD [] = b := by
          rw [← hsp]
          exact ih
        rw [List.getLastD_cons] at ihh
        rw [splitAtSign_cons_ne c _ p ps hc hsp, List.getLastD_cons]
        calc ps.getLastD (c :: p) = ps.getLastD p := getLastD_of_ne_nil ps _ _ hps
          _ = b := ihh

/-- Domain-class characters are never the at sign. -/
theorem domainChar_ne_at (c : Char) (h : isDomainChar c = true) : ¬c = '@' := by
  intro h0
  subst h0
  revert h
  decide

/-- Letters are never the at sign. -/
theorem alpha_ne_at (c : Char) (h : c.isAlpha = true) : ¬c = '@' := by
  intro h0
  subst h0
  revert h
  decide

/-- C10: splitting on the at sign always yields a non-empty list, so the
Python index -1 never fails; a string without an at sign is its own
domain; and for a format-valid address the extracted domain is non-empty
and ends in a dot followed by at least two letters, so the MX query never
sees an empty domain. -/
theorem domain_extraction_safe (email : String)
    (hv : is_valid_email_format email = true) :
    (∀ l : List Char, splitAtSign l ≠ []) ∧
    (∀ s : String, (∀ c ∈ s.data, ¬c = '@') → emailDomain s = s) ∧
    emailDomain email ≠ "" ∧
    ∃ d t : List Char, (emailDomain email).data = d ++ '.' :: t ∧ d ≠ [] ∧
      (∀ c ∈ d, isDomainChar c = true) ∧ 2 ≤ t.length ∧
      ∀ c ∈ t, c.isAlpha = true := by
  refine ⟨splitAtSign_ne_nil, ?_, ?_⟩
  · intro s hs
    cases s with
    | mk data =>
      show String.mk ((splitAtSign data).getLastD []) = String.mk data
      rw [splitAtSign_no_at data hs, List.getLastD_cons, List.getLastD_nil]
  · rcases (is_valid_email_format_iff email).mp hv with
      ⟨l, d, t, heq, -, -, hd, hdall, hlen, hall⟩
    have hb : ∀ c ∈ d ++ '.' :: t, ¬c = '@' := by
      intro c hc
      rcases List.mem_append.mp hc with hc | hc
      · exact domainChar_ne_at c (hdall c hc)
      · rcases List.mem_cons.mp hc with rfl | hc
        · decide
        · exact alpha_ne_at c (hall c hc)
    have hdom : (emailDomain email).data = d ++ '.' :: t := by
      show (splitAtSign email.data).getLastD [] = d ++ '.' :: t
      rw [heq, splitAtSign_getLastD l (d ++ '.' :: t) hb]
    refine ⟨?_, d, t, hdom, hd, hdall, hlen, hall⟩
    intro h0
    rw [h0] at hdom
    have h1 : ([] : List Char) = d ++ '.' :: t := hdom
    cases d <;> simp at h1

/-- Witness for C10 at the address from the first spec scenario. -/
theorem domain_extraction_safe_witness :
    is_valid_email_format "daniel@example.com" = true ∧
    emailDomain "daniel@example.com" ≠ "" :=
  ⟨by decide, (domain_extraction_safe "daniel@example.com" (by decide)).2.2.1⟩

end EmailValidator
